import Mathlib

/-!
Verification of the coverage remapping core in
bot/code_coverage_bot/phabricator.py.

The embedding models Python values shallowly:
Python str becomes List Char, Python list becomes List,
Python dict becomes an insertion-ordered association list,
Python int becomes Int, and a raised exception becomes the
error branch of Option / Except.
-/

namespace Phab

/-- Python sequence indexing.  A nonnegative index selects from the front,
a negative index selects from the back, and an out-of-range index yields
none, modelling a raised IndexError. -/
def pyIdx {α : Type} (l : List α) (i : Int) : Option α :=
  if 0 ≤ i then l.get? i.toNat
  else if -i ≤ (l.length : Int) then l.get? (l.length - (-i).toNat)
  else none

/-- Python dict assignment m[k] = v: if the key is present, the stored value
is replaced in place (insertion order kept), otherwise the pair is appended. -/
def dictInsert {α β : Type} [DecidableEq α] (m : List (α × β)) (k : α) (v : β) :
    List (α × β) :=
  if m.any (fun p => p.1 = k) then
    m.map (fun p => if p.1 = k then (k, v) else p)
  else m ++ [(k, v)]

/-- Python dict lookup, returning none for a missing key. -/
def dictGet? {α β : Type} [DecidableEq α] (m : List (α × β)) (k : α) : Option β :=
  (m.find? (fun p => p.1 = k)).map Prod.snd

/-- One record of annotate (per-line provenance) data, as consumed by
_build_coverage_map and _apply_coverage_map: the 1-based visible line
number at the annotated revision, the line number the line had when it was
introduced, and the changeset that introduced it. -/
structure AnnotateRecord where
  lineno : Int
  targetline : Int
  node : String
deriving DecidableEq

/-- The join key (origin changeset, origin line). -/
abbrev CoverageKey : Type := String × Int

/-- The coverage map built by _build_coverage_map: a Python dict from
CoverageKey to a raw coverage integer. -/
abbrev CoverageMap : Type := List (CoverageKey × Int)

/-- The join key of one annotate record. -/
def annotateKey (data : AnnotateRecord) : CoverageKey :=
  (data.node, data.targetline)

/-- One iteration of the loop of PhabricatorUploader._build_coverage_map
(phabricator.py lines 84-95): lineno is the 0-based coverage index of the
record, and when the guard lineno < len(coverage_record) holds, the raw
count at that index is stored under the record's key.  The Python indexing
can in principle raise (negative index on a too-short list), hence Option. -/
def build_coverage_map_step (coverage_record : List Int) (coverage_map : CoverageMap)
    (data : AnnotateRecord) : Option CoverageMap :=
  let lineno : Int := data.lineno - 1
  let orig_line : Int := data.targetline
  let orig_changeset : String := data.node
  if lineno < (coverage_record.length : Int) then
    (pyIdx coverage_record lineno).map
      (fun v => dictInsert coverage_map (orig_changeset, orig_line) v)
  else
    some coverage_map

/-- PhabricatorUploader._build_coverage_map (phabricator.py lines 74-97). -/
def build_coverage_map (annotate : List AnnotateRecord) (coverage_record : List Int) :
    Option CoverageMap :=
  annotate.foldlM (build_coverage_map_step coverage_record) []

/-- One iteration of the loop of PhabricatorUploader._apply_coverage_map
(phabricator.py lines 102-121): look the record's key up in the map and
append exactly one classification character. -/
def apply_coverage_map_step (coverage_map : CoverageMap) (acc : List Char)
    (data : AnnotateRecord) : List Char :=
  let key : CoverageKey := (data.node, data.targetline)
  match dictGet? coverage_map key with
  | some count =>
    if count = -1 then acc ++ ['N']
    else if count > 0 then acc ++ ['C']
    else acc ++ ['U']
  | none => acc ++ ['X']

/-- PhabricatorUploader._apply_coverage_map (phabricator.py lines 99-123).
The Python string being built is modelled as a list of characters. -/
def apply_coverage_map (annotate : List AnnotateRecord) (coverage_map : CoverageMap) :
    List Char :=
  annotate.foldl (apply_coverage_map_step coverage_map) []

/-- A covdir report node: a directory dict of children keyed by path
segment, together with a per-line coverage sequence at file nodes. -/
inductive CovdirReport : Type where
  | mk (children : List (List Char × CovdirReport)) (coverage : List Int)

/-- Children dictionary of a report node. -/
def CovdirReport.children : CovdirReport → List (List Char × CovdirReport)
  | .mk cs _ => cs

/-- Coverage sequence of a report node. -/
def CovdirReport.coverage : CovdirReport → List Int
  | .mk _ cov => cov

/-- Python str.split for the single-character separator slash: splitting
the empty string yields one empty segment, and adjacent separators yield
empty segments, exactly as in Python. -/
def splitSlash : List Char → List (List Char)
  | [] => [[]]
  | c :: rest =>
    match splitSlash rest with
    | [] => [[]]
    | s :: ss => if c = '/' then [] :: s :: ss else (c :: s) :: ss

/-- The descent loop of PhabricatorUploader._find_coverage (phabricator.py
lines 58-70): follow each segment into the children dict, returning none as
soon as a segment is missing, and the coverage at the reached node at the
end.  The logging in the missing-segment branch is diagnostic only and has
no effect on the returned value. -/
def find_coverage_go : List (List Char) → CovdirReport → Option (List Int)
  | [], report => some report.coverage
  | part :: rest, report =>
    match dictGet? report.children part with
    | none => none
    | some child => find_coverage_go rest child

/-- PhabricatorUploader._find_coverage (phabricator.py lines 51-72):
split the path on slashes, drop empty segments (filter(None, parts)),
then descend the report tree. -/
def find_coverage (report : CovdirReport) (path : List Char) : Option (List Int) :=
  find_coverage_go ((splitSlash path).filter (fun s => s ≠ [])) report

/-- The fixed literal part of PHABRICATOR_REVISION_REGEX: the regular
expression is this literal followed by one or more digits (the second
capture group). -/
def phabricatorUrlD : List Char :=
  ("Differential Revision: https://phabricator.services.mozilla.com/D").data

/-- Decimal value of a digit string, modelling Python int() on the digits
captured by the regex. -/
def digitsToNat (ds : List Char) : Nat :=
  ds.foldl (fun n c => n * 10 + (c.toNat - ('0').toNat)) 0

/-- Regex search: try to match the pattern at the current position (the
fixed literal followed by a maximal nonempty digit run, regex greediness),
otherwise advance one character.  This is the leftmost-match semantics of
re.search for this pattern. -/
def parse_revision_id_from : List Char → Option Nat
  | [] => none
  | c :: rest =>
    if phabricatorUrlD.isPrefixOf (c :: rest) then
      match ((c :: rest).drop phabricatorUrlD.length).takeWhile (fun ch => ch.isDigit) with
      | [] => parse_revision_id_from rest
      | d :: ds => some (digitsToNat (d :: ds))
    else parse_revision_id_from rest

/-- parse_revision_id (phabricator.py lines 22-26): search the commit
message for the Phabricator review URL pattern and return the numeric
review identifier, or none when there is no match. -/
def parse_revision_id (desc : List Char) : Option Nat :=
  parse_revision_id_from desc

/-- One changeset descriptor as consumed by generate: commit message,
changeset node identifier, and the list of changed file paths. -/
structure Changeset where
  desc : List Char
  node : String
  files : List (List Char)
deriving DecidableEq

/-- The per-path statistics dict built by generate (phabricator.py lines
196-213). -/
structure PathResult where
  lines_added : Nat
  lines_unknown : Nat
  lines_covered : Nat
  coverage : List Char
deriving DecidableEq

/-- The per-changeset result dict built by generate (phabricator.py lines
153-156). -/
structure RevisionResult where
  revision_id : Nat
  paths : List (List Char × PathResult)
deriving DecidableEq

/-- One of the three statistics sums of generate (phabricator.py lines
197-211): sum(pred(coverage[line]) for line in lines_added if
line < len(coverage)), where a True term counts 1.  A Python IndexError
(possible only for a negative index reaching past the front) is the none
branch. -/
def pySumIf (coverage : List Char) (lines_added : List Int) (pred : Char → Bool) :
    Option Nat :=
  (lines_added.filter (fun line => line < (coverage.length : Int))).foldlM
    (fun acc line => (pyIdx coverage line).map
      (fun ch => acc + (if pred ch then 1 else 0)))
    0

/-- The per-path result block of generate (phabricator.py lines 186-213):
the 0-based lines added by the changeset, the classification string, and
the three derived counts. -/
def path_entry (cnode : String) (annotate : List AnnotateRecord)
    (coverage_map : CoverageMap) : Option PathResult :=
  let lines_added : List Int :=
    (annotate.filter (fun line => line.node = cnode)).map (fun line => line.lineno - 1)
  let coverage : List Char := apply_coverage_map annotate coverage_map
  match pySumIf coverage lines_added (fun ch => ch ≠ ('N')),
        pySumIf coverage lines_added (fun ch => ch = ('X')),
        pySumIf coverage lines_added (fun ch => ch = ('C')) with
  | some a, some u, some c => some (PathResult.mk a u c coverage)
  | _, _, _ => none

/-- The body of the per-path loop of generate (phabricator.py lines
159-213).  annotateOf models hgmo_server.get_annotate; revision is the
build revision (self.revision); cnode is the changeset node.  A missing
coverage record or missing target annotate data skips the path (the
accumulated paths dict is returned unchanged); missing build annotate data
is the assertion failure at lines 167-173; an IndexError inside map
construction or the sums propagates as an error. -/
def process_path (annotateOf : String → List Char → Option (List AnnotateRecord))
    (revision : String) (report : CovdirReport) (cnode : String)
    (acc : List (List Char × PathResult)) (path : List Char) :
    Except String (List (List Char × PathResult)) :=
  match find_coverage report path with
  | none => .ok acc
  | some coverage_record =>
    match annotateOf revision path with
    | none => .error ("Failure to retrieve annotate data for the build changeset")
    | some build_annotate =>
      match build_coverage_map build_annotate coverage_record with
      | none => .error ("IndexError")
      | some coverage_map =>
        match annotateOf cnode path with
        | none => .ok acc
        | some annotate =>
          match path_entry cnode annotate coverage_map with
          | none => .error ("IndexError")
          | some entry => .ok (dictInsert acc path entry)

/-- The body of the per-changeset loop of generate (phabricator.py lines
147-213).  A changeset without a parsable revision id is skipped before its
entry is created.  The Python code stores the fresh entry before the file
loop and mutates it; since an exception aborts the whole call without
returning the dict, storing the finished entry after the file loop is
observationally identical for the returned value. -/
def process_changeset (annotateOf : String → List Char → Option (List AnnotateRecord))
    (revision : String) (report : CovdirReport)
    (results : List (String × RevisionResult)) (changeset : Changeset) :
    Except String (List (String × RevisionResult)) :=
  match parse_revision_id changeset.desc with
  | none => .ok results
  | some revision_id =>
    match changeset.files.foldlM (process_path annotateOf revision report changeset.node) [] with
    | .error e => .error e
    | .ok paths => .ok (dictInsert results changeset.node (RevisionResult.mk revision_id paths))

/-- PhabricatorUploader.generate (phabricator.py lines 143-215), with the
external hgmo annotate provider passed in as a function. -/
def generate (annotateOf : String → List Char → Option (List AnnotateRecord))
    (revision : String) (report : CovdirReport) (changesets : List Changeset) :
    Except String (List (String × RevisionResult)) :=
  changesets.foldlM (process_changeset annotateOf revision report) []

/-- Classification of one target-provenance record by a coverage map, as the
spec words it: absent key gives X, value -1 gives N, a positive value gives
C, and value 0 or any negative value other than -1 gives U. -/
def specClassify (coverage_map : CoverageMap) (data : AnnotateRecord) : Char :=
  match dictGet? coverage_map (data.node, data.targetline) with
  | none => 'X'
  | some count => if count = -1 then 'N' else if count > 0 then 'C' else 'U'

/-- Classification derived directly from one raw coverage value, as the
spec words it for the identity-mapping property. -/
def rawClassify (v : Int) : Char :=
  if v = -1 then 'N' else if v > 0 then 'C' else 'U'

/-- One step of map construction as the spec words it: the record inserts
the raw count at its 0-based visible line exactly when that index is
within the bounds of the coverage sequence, and is dropped otherwise. -/
def spec_build_step (coverage_record : List Int) (m : CoverageMap)
    (data : AnnotateRecord) : CoverageMap :=
  match coverage_record.get? (data.lineno - 1).toNat with
  | some v => dictInsert m (data.node, data.targetline) v
  | none => m

/-- Map construction as the spec words it: a total fold of spec_build_step,
which can never fail. -/
def specBuildMap (annotate : List AnnotateRecord) (coverage_record : List Int) :
    CoverageMap :=
  annotate.foldl (spec_build_step coverage_record) []

/-- Tree descent as the spec words it: consume the segments one at a time,
returning a not-found result as soon as a segment is absent among the
current children, and the coverage stored at the reached node otherwise. -/
def specFind : CovdirReport → List (List Char) → Option (List Int)
  | report, [] => some report.coverage
  | report, seg :: rest =>
    match dictGet? report.children seg with
    | none => none
    | some child => specFind child rest

/-- The 0-based positions, in the target provenance sequence, of the
records introduced by the given changeset, as the spec words the
added-lines set. -/
def specAddedIdx (cnode : String) (annotate : List AnnotateRecord) : List Nat :=
  (annotate.enum.filter (fun p => p.2.node = cnode)).map Prod.fst

/-- Count, over the added positions that are within the bounds of the
classification string, of those whose classification satisfies the
predicate, as the spec words the derived statistics. -/
def specCount (coverage : List Char) (idxs : List Nat) (pred : Char → Bool) : Nat :=
  ((idxs.filter (fun i => i < coverage.length)).map
    (fun i => coverage.getD i ('X'))).countP pred

/-- Inverse of splitting on slashes, used to state that splitSlash is a
genuine split of the path. -/
def joinSlash : List (List Char) → List Char
  | [] => []
  | [s] => s
  | s :: ss => s ++ '/' :: joinSlash ss

/-! Concrete data for the worked example of the spec (section 8): a 4-line
file at build revision r0 with raw coverage [None, 1, 1, 0] (None mapped
upstream to -1), and a target revision r1 inserting one line after visible
line 2. -/

/-- Worked example: raw coverage at the build revision. -/
def exRaw : List Int := [-1, 1, 1, 0]

/-- Worked example: build-revision provenance, visible lines 1-4 with
origin keys (r0,1) to (r0,4). -/
def exBuildAnn : List AnnotateRecord :=
  [⟨1, 1, "r0"⟩, ⟨2, 2, "r0"⟩, ⟨3, 3, "r0"⟩, ⟨4, 4, "r0"⟩]

/-- Worked example: target-revision provenance for visible lines 1-5, with
the line inserted by r1 at visible line 3. -/
def exTargetAnn : List AnnotateRecord :=
  [⟨1, 1, "r0"⟩, ⟨2, 2, "r0"⟩, ⟨3, 1, "r1"⟩, ⟨4, 3, "r0"⟩, ⟨5, 4, "r0"⟩]

/-- Worked example: a report with one file holding the raw coverage. -/
def exReport : CovdirReport := .mk [(("f.cpp").data, .mk [] exRaw)] []

/-- Worked example: the annotate provider, serving the build revision r0
and the target revision r1. -/
def exAnnotateOf : String → List Char → Option (List AnnotateRecord) :=
  fun rev _path =>
    if rev = "r0" then some exBuildAnn
    else if rev = "r1" then some exTargetAnn else none

/-- Worked example: the target changeset, whose commit message carries
review request number 42. -/
def exChangeset : Changeset :=
  ⟨("Differential Revision: https://phabricator.services.mozilla.com/D42").data,
   "r1", [("f.cpp").data]⟩

/-- Witness data: a provenance sequence whose second record points one
line past the end of a one-line coverage sequence. -/
def wAnn4 : List AnnotateRecord := [⟨1, 1, "rb"⟩, ⟨7, 2, "rb"⟩]

/-- Witness data: a one-line raw coverage sequence. -/
def wRaw4 : List Int := [3]

/-- Witness data: the coverage map built from the worked example's build
provenance and raw coverage. -/
def wCm3 : CoverageMap :=
  [(("r0", 1), -1), (("r0", 2), 1), (("r0", 3), 1), (("r0", 4), 0)]

/-- Witness data: a two-level report with coverage at path a/b. -/
def wRep9 : CovdirReport :=
  .mk [(("a").data, .mk [(("b").data, .mk [] [1])] [])] []

/-- Witness data: the path a/b. -/
def wPath9 : List Char := ("a/b").data

/-- Witness data: an annotate provider with no data at all. -/
def wA7 : String → List Char → Option (List AnnotateRecord) := fun _ _ => none

/-- Witness data: a report holding coverage for the single file f. -/
def wRep7 : CovdirReport := .mk [(("f").data, .mk [] [1])] []

/-- Witness data: a changeset touching f whose message carries review
request 7. -/
def wCs7 : Changeset :=
  ⟨("Differential Revision: https://phabricator.services.mozilla.com/D7").data,
   "t1", [("f").data]⟩

/-- Witness data: an annotate provider serving only the build revision. -/
def wA8 : String → List Char → Option (List AnnotateRecord) :=
  fun rev _ => if rev = "rb" then some exBuildAnn else none

/-- Witness data: a changeset whose message carries no review URL. -/
def wNoRev : Changeset := ⟨("no review url here").data, "t0", []⟩

/-- Witness data: a commit message carrying review request 8. -/
def wDesc8 : List Char :=
  ("Differential Revision: https://phabricator.services.mozilla.com/D8").data

/-- Witness data: an empty report. -/
def wRep10 : CovdirReport := .mk [] []

/-- Witness data: a changeset touching f whose message carries review
request 9. -/
def wCs10 : Changeset :=
  ⟨("Differential Revision: https://phabricator.services.mozilla.com/D9").data,
   "t9", [("f").data]⟩

/-- Witness data: the result generate returns on wCs10 with the empty
report: an entry with an empty paths dict. -/
def wRes10 : List (String × RevisionResult) := [("t9", ⟨9, []⟩)]

/-! Helper lemmas. -/

theorem except_bind_error {γ δ : Type} (e : String) (f : γ → Except String δ) :
    ((Except.error e : Except String γ) >>= f) = Except.error e := rfl

theorem except_bind_ok {γ δ : Type} (a : γ) (f : γ → Except String δ) :
    ((Except.ok a : Except String γ) >>= f) = f a := rfl

theorem exceptBind_congr {γ δ : Type} {x : Except String γ}
    {f g : γ → Except String δ} (h : ∀ a, f a = g a) : (x >>= f) = (x >>= g) := by
  cases x with
  | error e => rfl
  | ok a => rw [except_bind_ok, except_bind_ok, h a]

theorem foldlM_error_of_mem {α β : Type} (step : β → α → Except String β) :
    ∀ (l : List α) (x : α), x ∈ l →
      (∀ acc, ∃ e, step acc x = .error e) →
      ∀ init, ∃ e, l.foldlM step init = .error e
  | [], x, hx, _, _ => absurd hx (List.not_mem_nil x)
  | a :: rest, x, hx, hstep, init => by
    rw [List.foldlM_cons]
    rcases List.mem_cons.1 hx with rfl | hx'
    · obtain ⟨e, he⟩ := hstep init
      rw [he, except_bind_error]
      exact ⟨e, rfl⟩
    · cases ha : step init a with
      | error e =>
        rw [except_bind_error]
        exact ⟨e, rfl⟩
      | ok acc' =>
        rw [except_bind_ok]
        exact foldlM_error_of_mem step rest x hx' hstep acc'

theorem foldlM_skip {α β : Type} (step : β → α → Except String β)
    (l1 l2 : List α) (x : α) (hx : ∀ acc, step acc x = .ok acc) (init : β) :
    (l1 ++ x :: l2).foldlM step init = (l1 ++ l2).foldlM step init := by
  rw [List.foldlM_append, List.foldlM_append]
  apply exceptBind_congr
  intro acc
  rw [List.foldlM_cons, hx acc, except_bind_ok]

theorem foldlM_congr_elem {α β : Type} (step : β → α → Except String β)
    (l1 l2 : List α) (x y : α) (hxy : ∀ acc, step acc x = step acc y) (init : β) :
    (l1 ++ x :: l2).foldlM step init = (l1 ++ y :: l2).foldlM step init := by
  rw [List.foldlM_append, List.foldlM_append]
  apply exceptBind_congr
  intro acc
  rw [List.foldlM_cons, List.foldlM_cons, hxy acc]

theorem splitSlash_ne_nil : ∀ (s : List Char), splitSlash s ≠ []
  | [] => by simp [splitSlash]
  | c :: rest => by
    dsimp only [splitSlash]
    cases splitSlash rest with
    | nil => simp
    | cons s ss => split_ifs <;> simp

theorem joinSlash_splitSlash : ∀ (s : List Char), joinSlash (splitSlash s) = s
  | [] => rfl
  | c :: rest => by
    have hIH := joinSlash_splitSlash rest
    dsimp only [splitSlash]
    cases h : splitSlash rest with
    | nil => exact absurd h (splitSlash_ne_nil rest)
    | cons seg ss =>
      rw [h] at hIH
      dsimp only
      by_cases hc : c = '/'
      · rw [if_pos hc, hc]
        show '/' :: joinSlash (seg :: ss) = '/' :: rest
        rw [hIH]
      · rw [if_neg hc]
        cases ss with
        | nil =>
          show c :: seg = c :: rest
          rw [show joinSlash [seg] = seg from rfl] at hIH
          rw [hIH]
        | cons t ts =>
          show (c :: seg) ++ '/' :: joinSlash (t :: ts) = c :: rest
          rw [List.cons_append]
          rw [show seg ++ '/' :: joinSlash (t :: ts) = joinSlash (seg :: t :: ts) from rfl]
          rw [hIH]

theorem splitSlash_no_slash : ∀ (s : List Char), ∀ seg ∈ splitSlash s, ('/') ∉ seg
  | [] => by
    intro seg hseg
    simp only [splitSlash, List.mem_singleton] at hseg
    subst hseg
    simp
  | c :: rest => by
    intro seg hseg
    have hIH := splitSlash_no_slash rest
    dsimp only [splitSlash] at hseg
    cases h : splitSlash rest with
    | nil => exact absurd h (splitSlash_ne_nil rest)
    | cons s ss =>
      rw [h] at hseg
      dsimp only at hseg
      by_cases hc : c = '/'
      · rw [if_pos hc] at hseg
        rcases List.mem_cons.1 hseg with rfl | hseg'
        · simp
        · exact hIH seg (h ▸ hseg')
      · rw [if_neg hc] at hseg
        rcases List.mem_cons.1 hseg with rfl | hseg'
        · have hs := hIH s (h ▸ List.mem_cons_self s ss)
          intro hmem
          rcases List.mem_cons.1 hmem with he | hm
          · exact hc he.symm
          · exact hs hm
        · exact hIH seg (h ▸ List.mem_cons.2 (Or.inr hseg'))

theorem find_go_eq_specFind : ∀ (parts : List (List Char)) (report : CovdirReport),
    find_coverage_go parts report = specFind report parts
  | [], _ => rfl
  | part :: rest, report => by
    dsimp only [find_coverage_go, specFind]
    cases dictGet? report.children part with
    | none => rfl
    | some child => exact find_go_eq_specFind rest child

theorem apply_step_eq (coverage_map : CoverageMap) (acc : List Char)
    (data : AnnotateRecord) :
    apply_coverage_map_step coverage_map acc data
      = acc ++ [specClassify coverage_map data] := by
  dsimp only [apply_coverage_map_step, specClassify]
  cases hd : dictGet? coverage_map (data.node, data.targetline) with
  | none => simp only [hd]
  | some count =>
    simp only [hd]
    split_ifs <;> rfl

theorem apply_foldl_acc (coverage_map : CoverageMap) :
    ∀ (annotate : List AnnotateRecord) (acc : List Char),
      annotate.foldl (apply_coverage_map_step coverage_map) acc
        = acc ++ annotate.map (specClassify coverage_map)
  | [], acc => by simp
  | data :: rest, acc => by
    rw [List.foldl_cons, apply_step_eq, apply_foldl_acc coverage_map rest,
      List.map_cons, List.append_assoc, List.singleton_append]

theorem apply_eq_map (annotate : List AnnotateRecord) (coverage_map : CoverageMap) :
    apply_coverage_map annotate coverage_map
      = annotate.map (specClassify coverage_map) := by
  unfold apply_coverage_map
  rw [apply_foldl_acc, List.nil_append]

theorem specClassify_empty (data : AnnotateRecord) : specClassify [] data = 'X' := rfl

theorem find?_map_replace {α β : Type} [DecidableEq α] (k : α) (v : β) :
    ∀ (m : List (α × β)), m.any (fun p => p.1 = k) = true →
      (m.map (fun p => if p.1 = k then (k, v) else p)).find? (fun p => p.1 = k)
        = some (k, v)
  | [], h => by simp at h
  | p :: rest, h => by
    by_cases hpk : p.1 = k
    · rw [List.map_cons, if_pos hpk]
      exact List.find?_cons_of_pos _ (by simp)
    · rw [List.map_cons, if_neg hpk]
      rw [List.find?_cons_of_neg _ (by simpa using hpk)]
      apply find?_map_replace k v rest
      simpa [hpk] using h

theorem find?_map_replace_ne {α β : Type} [DecidableEq α] (k k' : α) (v : β)
    (hne : k' ≠ k) :
    ∀ (m : List (α × β)),
      (m.map (fun p => if p.1 = k then (k, v) else p)).find? (fun p => p.1 = k')
        = m.find? (fun p => p.1 = k')
  | [] => rfl
  | p :: rest => by
    by_cases hpk : p.1 = k
    · rw [List.map_cons, if_pos hpk]
      rw [List.find?_cons_of_neg _ (by simp [Ne.symm hne])]
      rw [List.find?_cons_of_neg _ (by rw [hpk]; simp [Ne.symm hne])]
      exact find?_map_replace_ne k k' v hne rest
    · rw [List.map_cons, if_neg hpk]
      by_cases hpk' : p.1 = k'
      · rw [List.find?_cons_of_pos _ (by simpa using hpk'),
          List.find?_cons_of_pos _ (by simpa using hpk')]
      · rw [List.find?_cons_of_neg _ (by simpa using hpk'),
          List.find?_cons_of_neg _ (by simpa using hpk')]
        exact find?_map_replace_ne k k' v hne rest

theorem dictGet?_insert_self {α β : Type} [DecidableEq α] (m : List (α × β))
    (k : α) (v : β) : dictGet? (dictInsert m k v) k = some v := by
  unfold dictGet? dictInsert
  by_cases h : m.any (fun p => p.1 = k) = true
  · rw [if_pos h, find?_map_replace k v m h]
    rfl
  · rw [if_neg h, List.find?_append]
    have hnone : m.find? (fun p => p.1 = k) = none := by
      rw [List.find?_eq_none]
      intro x hx hpx
      exact h (List.any_eq_true.2 ⟨x, hx, hpx⟩)
    rw [hnone, List.find?_cons_of_pos _ (by simp)]
    rfl

theorem dictGet?_insert_ne {α β : Type} [DecidableEq α] (m : List (α × β))
    (k k' : α) (v : β) (hne : k' ≠ k) :
    dictGet? (dictInsert m k v) k' = dictGet? m k' := by
  unfold dictGet? dictInsert
  by_cases h : m.any (fun p => p.1 = k) = true
  · rw [if_pos h, find?_map_replace_ne k k' v hne m]
  · rw [if_neg h, List.find?_append]
    have hlast : List.find? (fun p => p.1 = k') [(k, v)] = none := by
      rw [List.find?_eq_none]
      intro x hx
      simp only [List.mem_singleton] at hx
      subst hx
      simp [Ne.symm hne]
    rw [hlast]
    cases m.find? (fun p => p.1 = k') <;> rfl

theorem build_step_eq (coverage_record : List Int) (m : CoverageMap)
    (data : AnnotateRecord) (h : 1 ≤ data.lineno) :
    build_coverage_map_step coverage_record m data
      = some (spec_build_step coverage_record m data) := by
  dsimp only [build_coverage_map_step, spec_build_step]
  by_cases hb : (data.lineno - 1 : Int) < (coverage_record.length : Int)
  · rw [if_pos hb]
    have hlt : (data.lineno - 1).toNat < coverage_record.length := by omega
    have hpy : pyIdx coverage_record (data.lineno - 1)
        = coverage_record.get? (data.lineno - 1).toNat := by
      dsimp only [pyIdx]
      rw [if_pos (by omega)]
    rw [hpy, List.get?_eq_get hlt]
    rfl
  · rw [if_neg hb]
    have hnone : coverage_record.get? (data.lineno - 1).toNat = none := by
      rw [List.get?_eq_none]
      omega
    rw [hnone]

theorem build_foldlM_eq (coverage_record : List Int) :
    ∀ (annotate : List AnnotateRecord) (m : CoverageMap),
      (∀ data ∈ annotate, 1 ≤ data.lineno) →
      annotate.foldlM (build_coverage_map_step coverage_record) m
        = some (annotate.foldl (spec_build_step coverage_record) m)
  | [], _, _ => rfl
  | data :: rest, m, h => by
    rw [List.foldlM_cons, build_step_eq coverage_record m data (h data (by simp))]
    show rest.foldlM (build_coverage_map_step coverage_record) _ = _
    rw [List.foldl_cons]
    exact build_foldlM_eq coverage_record rest _ (fun d hd => h d (by simp [hd]))

theorem spec_build_preserve (coverage_record : List Int) (k : CoverageKey) :
    ∀ (annotate : List AnnotateRecord) (m : CoverageMap),
      (∀ data ∈ annotate, annotateKey data ≠ k) →
      dictGet? (annotate.foldl (spec_build_step coverage_record) m) k = dictGet? m k
  | [], _, _ => rfl
  | data :: rest, m, h => by
    rw [List.foldl_cons,
      spec_build_preserve coverage_record k rest _ (fun d hd => h d (by simp [hd]))]
    dsimp only [spec_build_step]
    cases hcr : coverage_record.get? (data.lineno - 1).toNat with
    | none => rfl
    | some v =>
      exact dictGet?_insert_ne m (data.node, data.targetline) k v
        (fun he => (h data (by simp)) he.symm)

theorem specBuildMap_lookup (coverage_record : List Int) :
    ∀ (annotate : List AnnotateRecord) (m : CoverageMap) (data : AnnotateRecord),
      data ∈ annotate →
      (annotate.map annotateKey).Nodup →
      ∀ v, coverage_record.get? (data.lineno - 1).toNat = some v →
      dictGet? (annotate.foldl (spec_build_step coverage_record) m) (annotateKey data)
        = some v
  | [], _, _, hmem, _, _, _ => absurd hmem (List.not_mem_nil _)
  | d0 :: rest, m, data, hmem, hnodup, v, hv => by
    rw [List.map_cons, List.nodup_cons] at hnodup
    rcases List.mem_cons.1 hmem with heq | hmem'
    · subst heq
      rw [List.foldl_cons]
      rw [spec_build_preserve coverage_record (annotateKey data) rest _
        (fun d hd he => hnodup.1 (he ▸ List.mem_map_of_mem annotateKey hd))]
      dsimp only [spec_build_step]
      rw [hv]
      exact dictGet?_insert_self m (data.node, data.targetline) v
    · rw [List.foldl_cons]
      exact specBuildMap_lookup coverage_record rest _ data hmem' hnodup.2 v hv

theorem added_enumFrom (cnode : String) :
    ∀ (annotate : List AnnotateRecord) (n : Nat),
      (∀ i (hi : i < annotate.length),
        (annotate.get ⟨i, hi⟩).lineno = (n : Int) + i + 1) →
      (annotate.filter (fun line => line.node = cnode)).map (fun line => line.lineno - 1)
        = ((annotate.enumFrom n).filter (fun p => p.2.node = cnode)).map
            (fun p => ((p.1 : Nat) : Int))
  | [], _, _ => rfl
  | d :: rest, n, h => by
    have hd : d.lineno = (n : Int) + 1 := by
      have h0 := h 0 (by simp)
      simpa using h0
    have hrest := added_enumFrom cnode rest (n + 1) (fun i hi => by
      have hs := h (i + 1) (by simpa using Nat.succ_lt_succ hi)
      simp only [List.get_cons_succ] at hs
      rw [hs]
      push_cast
      ring)
    rw [List.enumFrom_cons]
    by_cases hnode : d.node = cnode
    · rw [List.filter_cons_of_pos (by simpa using hnode),
        List.filter_cons_of_pos (by simpa using hnode),
        List.map_cons, List.map_cons, hd, hrest]
      norm_num
    · rw [List.filter_cons_of_neg (by simpa using hnode),
        List.filter_cons_of_neg (by simpa using hnode)]
      exact hrest

theorem pySum_fold (coverage : List Char) (pred : Char → Bool) :
    ∀ (idxs : List Nat) (acc : Nat), (∀ i ∈ idxs, i < coverage.length) →
      (idxs.map (fun i : Nat => (i : Int))).foldlM
        (fun acc line => (pyIdx coverage line).map
          (fun ch => acc + (if pred ch then 1 else 0)))
        acc
        = some (acc + (idxs.map (fun i => coverage.getD i ('X'))).countP pred)
  | [], acc, _ => by simp
  | i :: rest, acc, h => by
    have hi : i < coverage.length := h i (by simp)
    have hgetD : coverage.getD i ('X') = coverage.get ⟨i, hi⟩ := by
      rw [List.getD_eq_get?, List.get?_eq_get hi]
      rfl
    have hpy : pyIdx coverage ((i : Nat) : Int) = some (coverage.getD i ('X')) := by
      dsimp only [pyIdx]
      rw [if_pos (by positivity), Int.toNat_natCast, List.get?_eq_get hi, hgetD]
    rw [List.map_cons, List.foldlM_cons, hpy]
    show (rest.map (fun i : Nat => (i : Int))).foldlM _ _ = _
    rw [pySum_fold coverage pred rest _ (fun j hj => h j (by simp [hj]))]
    rw [List.map_cons, List.countP_cons]
    congr 1
    beta_reduce
    omega

theorem pySumIf_nat (coverage : List Char) (pred : Char → Bool) (idxs : List Nat) :
    pySumIf coverage (idxs.map (fun i : Nat => (i : Int))) pred
      = some (specCount coverage idxs pred) := by
  dsimp only [pySumIf, specCount]
  rw [List.filter_map]
  rw [List.filter_congr (q := fun i => i < coverage.length)
    (fun i _ => by simp [Function.comp])]
  rw [pySum_fold coverage pred (idxs.filter (fun i => i < coverage.length)) 0
    (fun j hj => by simpa using (List.mem_filter.1 hj).2)]
  rw [Nat.zero_add]

theorem process_changeset_preserve
    (annotateOf : String → List Char → Option (List AnnotateRecord))
    (revision : String) (report : CovdirReport) (node0 : String) :
    ∀ (changesets : List Changeset) (acc res : List (String × RevisionResult)),
      changesets.foldlM (process_changeset annotateOf revision report) acc = .ok res →
      (∀ c ∈ changesets, c.node ≠ node0) →
      dictGet? res node0 = dictGet? acc node0
  | [], acc, res, hok, _ => by
    rw [List.foldlM_nil] at hok
    rw [Except.ok.inj hok]
  | c :: rest, acc, res, hok, hne => by
    rw [List.foldlM_cons] at hok
    cases hstep : process_changeset annotateOf revision report acc c with
    | error e =>
      rw [hstep, except_bind_error] at hok
      exact Except.noConfusion hok
    | ok acc1 =>
      rw [hstep, except_bind_ok] at hok
      rw [process_changeset_preserve annotateOf revision report node0 rest acc1 res
        hok (fun d hd => hne d (List.mem_cons.2 (Or.inr hd)))]
      dsimp only [process_changeset] at hstep
      cases hr : parse_revision_id c.desc with
      | none =>
        rw [hr] at hstep
        rw [← Except.ok.inj hstep]
      | some rid =>
        rw [hr] at hstep
        cases hf : c.files.foldlM (process_path annotateOf revision report c.node) [] with
        | error e =>
          rw [hf] at hstep
          exact Except.noConfusion hstep
        | ok paths =>
          rw [hf] at hstep
          rw [← Except.ok.inj hstep]
          exact dictGet?_insert_ne acc c.node node0 (RevisionResult.mk rid paths)
            (fun he => hne c (List.mem_cons_self c rest) he.symm)

theorem process_path_skip_all
    (annotateOf : String → List Char → Option (List AnnotateRecord))
    (revision : String) (report : CovdirReport) (cnode : String) :
    ∀ (files : List (List Char)) (acc paths : List (List Char × PathResult)),
      files.foldlM (process_path annotateOf revision report cnode) acc = .ok paths →
      (∀ p ∈ files, find_coverage report p = none ∨ annotateOf cnode p = none) →
      paths = acc
  | [], acc, paths, hok, _ => by
    rw [List.foldlM_nil] at hok
    exact (Except.ok.inj hok).symm
  | p :: rest, acc, paths, hok, hskip => by
    rw [List.foldlM_cons] at hok
    cases hfc : find_coverage report p with
    | none =>
      have hstep : process_path annotateOf revision report cnode acc p = .ok acc := by
        dsimp only [process_path]
        rw [hfc]
      rw [hstep, except_bind_ok] at hok
      exact process_path_skip_all annotateOf revision report cnode rest acc paths
        hok (fun q hq => hskip q (List.mem_cons.2 (Or.inr hq)))
    | some cr =>
      have hta : annotateOf cnode p = none := by
        rcases hskip p (List.mem_cons_self p rest) with h | h
        · rw [h] at hfc
          exact Option.noConfusion hfc
        · exact h
      cases hba : annotateOf revision p with
      | none =>
        have hstep : process_path annotateOf revision report cnode acc p
            = .error ("Failure to retrieve annotate data for the build changeset") := by
          dsimp only [process_path]
          rw [hfc]
          simp only [hba]
        rw [hstep, except_bind_error] at hok
        exact Except.noConfusion hok
      | some ba =>
        cases hbm : build_coverage_map ba cr with
        | none =>
          have hstep : process_path annotateOf revision report cnode acc p
              = .error ("IndexError") := by
            dsimp only [process_path]
            simp only [hfc, hba, hbm]
          rw [hstep, except_bind_error] at hok
          exact Except.noConfusion hok
        | some cmv =>
          have hstep : process_path annotateOf revision report cnode acc p = .ok acc := by
            dsimp only [process_path]
            simp only [hfc, hba, hbm, hta]
          rw [hstep, except_bind_ok] at hok
          exact process_path_skip_all annotateOf revision report cnode rest acc paths
            hok (fun q hq => hskip q (List.mem_cons.2 (Or.inr hq)))

theorem gen_fold_entry
    (annotateOf : String → List Char → Option (List AnnotateRecord))
    (revision : String) (report : CovdirReport) :
    ∀ (changesets : List Changeset) (acc res : List (String × RevisionResult))
      (c : Changeset) (rid : Nat),
      changesets.foldlM (process_changeset annotateOf revision report) acc = .ok res →
      (changesets.map Changeset.node).Nodup →
      c ∈ changesets →
      parse_revision_id c.desc = some rid →
      ∃ entry, dictGet? res c.node = some entry ∧ entry.revision_id = rid
        ∧ ((∀ p ∈ c.files, find_coverage report p = none ∨ annotateOf c.node p = none) →
            entry.paths = [])
  | [], _, _, c, _, _, _, hc, _ => absurd hc (List.not_mem_nil c)
  | c0 :: rest, acc, res, c, rid, hok, hnodup, hc, hrid => by
    rw [List.foldlM_cons] at hok
    rw [List.map_cons, List.nodup_cons] at hnodup
    cases hstep : process_changeset annotateOf revision report acc c0 with
    | error e =>
      rw [hstep, except_bind_error] at hok
      exact Except.noConfusion hok
    | ok acc1 =>
      rw [hstep, except_bind_ok] at hok
      rcases List.mem_cons.1 hc with rfl | hc'
      · dsimp only [process_changeset] at hstep
        rw [hrid] at hstep
        cases hf : c.files.foldlM (process_path annotateOf revision report c.node) [] with
        | error e =>
          rw [hf] at hstep
          exact Except.noConfusion hstep
        | ok paths =>
          rw [hf] at hstep
          refine ⟨RevisionResult.mk rid paths, ?_, rfl, ?_⟩
          · rw [process_changeset_preserve annotateOf revision report c.node rest
              acc1 res hok
              (fun d hd he => hnodup.1 (he ▸ List.mem_map_of_mem Changeset.node hd))]
            rw [← Except.ok.inj hstep]
            exact dictGet?_insert_self acc c.node (RevisionResult.mk rid paths)
          · intro hskip
            exact process_path_skip_all annotateOf revision report c.node
              c.files [] paths hf hskip
      · exact gen_fold_entry annotateOf revision report rest acc1 res c rid
          hok hnodup.2 hc' hrid

/-! Claim theorems. -/

/-- Claim C1: apply_coverage_map processes the target records in order,
appending exactly one classification per record according to the
absent-X / -1-N / positive-C / otherwise-U table (specClassify), and with
an empty map every line is classified X. -/
theorem claim1_apply_map_classification (annotate : List AnnotateRecord)
    (coverage_map : CoverageMap) :
    apply_coverage_map annotate coverage_map
        = annotate.map (specClassify coverage_map)
      ∧ apply_coverage_map annotate [] = List.replicate annotate.length 'X' := by
  refine ⟨apply_eq_map annotate coverage_map, ?_⟩
  rw [apply_eq_map]
  rw [show specClassify [] = fun _ => 'X' from funext specClassify_empty]
  exact List.map_const' annotate 'X'

/-- Claim C2: the classification string returned by apply_coverage_map has
exactly one character per target provenance record. -/
theorem claim2_apply_map_length (annotate : List AnnotateRecord)
    (coverage_map : CoverageMap) :
    (apply_coverage_map annotate coverage_map).length = annotate.length := by
  rw [apply_eq_map, List.length_map]

/-- Claim C6: for a target provenance sequence that enumerates the file's
lines in order (record i carries visible line i+1), the added lines
computed by generate are exactly the 0-based positions of the records
introduced by the changeset, and the three statistics are the counts, over
the added positions within the classification string's bounds, of
classifications not N, equal to X, and equal to C respectively. -/
theorem claim6_added_lines_and_counts (cnode : String) (annotate : List AnnotateRecord)
    (cm : CoverageMap)
    (hlin : ∀ i (hi : i < annotate.length), (annotate.get ⟨i, hi⟩).lineno = (i : Int) + 1) :
    (annotate.filter (fun line => line.node = cnode)).map (fun line => line.lineno - 1)
        = (specAddedIdx cnode annotate).map (fun i : Nat => (i : Int))
      ∧ path_entry cnode annotate cm
        = some (PathResult.mk
            (specCount (apply_coverage_map annotate cm) (specAddedIdx cnode annotate)
              (fun ch => ch ≠ ('N')))
            (specCount (apply_coverage_map annotate cm) (specAddedIdx cnode annotate)
              (fun ch => ch = ('X')))
            (specCount (apply_coverage_map annotate cm) (specAddedIdx cnode annotate)
              (fun ch => ch = ('C')))
            (apply_coverage_map annotate cm)) := by
  have hadd : (annotate.filter (fun line => line.node = cnode)).map
        (fun line => line.lineno - 1)
      = (specAddedIdx cnode annotate).map (fun i : Nat => (i : Int)) := by
    have h0 := added_enumFrom cnode annotate 0 (fun i hi => by
      rw [hlin i hi]
      norm_num)
    rw [h0]
    dsimp only [specAddedIdx]
    rw [List.map_map]
    rfl
  refine ⟨hadd, ?_⟩
  dsimp only [path_entry]
  rw [hadd, pySumIf_nat, pySumIf_nat, pySumIf_nat]

/-- Witness for claim C6: the worked example's target provenance and
coverage map. -/
theorem claim6_witness :
    (exTargetAnn.filter (fun line => line.node = "r1")).map
        (fun line => line.lineno - 1)
        = (specAddedIdx ("r1") exTargetAnn).map (fun i : Nat => (i : Int))
      ∧ path_entry ("r1") exTargetAnn wCm3
        = some (PathResult.mk
            (specCount (apply_coverage_map exTargetAnn wCm3) (specAddedIdx ("r1") exTargetAnn)
              (fun ch => ch ≠ ('N')))
            (specCount (apply_coverage_map exTargetAnn wCm3) (specAddedIdx ("r1") exTargetAnn)
              (fun ch => ch = ('X')))
            (specCount (apply_coverage_map exTargetAnn wCm3) (specAddedIdx ("r1") exTargetAnn)
              (fun ch => ch = ('C')))
            (apply_coverage_map exTargetAnn wCm3)) :=
  claim6_added_lines_and_counts ("r1") exTargetAnn wCm3 (by decide)

/-- Claim C4: for a build provenance sequence of 1-based visible line
numbers, build_coverage_map converts each visible line to a 0-based index,
inserts the raw count under the record's origin key exactly when that
index is within the bounds of the coverage sequence, silently drops
out-of-bounds records, and never fails: it always equals the total
spec-side fold specBuildMap. -/
theorem claim4_build_map_bounds (annotate : List AnnotateRecord)
    (coverage_record : List Int) (h : ∀ data ∈ annotate, 1 ≤ data.lineno) :
    build_coverage_map annotate coverage_record
      = some (specBuildMap annotate coverage_record) :=
  build_foldlM_eq coverage_record annotate [] h

/-- Witness for claim C4: a concrete run in which the second record is
out of bounds and is dropped. -/
theorem claim4_witness :
    build_coverage_map wAnn4 wRaw4 = some (specBuildMap wAnn4 wRaw4) :=
  claim4_build_map_bounds wAnn4 wRaw4 (by decide)

/-- Claim C3: identity mapping.  When the provenance keys are pairwise
distinct and the same provenance is used to build and to apply the map,
every line whose visible line number is within the bounds of the raw
coverage is classified exactly as the raw value dictates (rawClassify:
-1 gives N, positive gives C, otherwise U) and never X. -/
theorem claim3_identity_mapping (annotate : List AnnotateRecord)
    (coverage_record : List Int) (cm : CoverageMap)
    (hkeys : (annotate.map annotateKey).Nodup)
    (hlin : ∀ data ∈ annotate, 1 ≤ data.lineno)
    (hcm : build_coverage_map annotate coverage_record = some cm)
    (i : Nat) (hi : i < annotate.length)
    (hb : (annotate.get ⟨i, hi⟩).lineno - 1 < (coverage_record.length : Int)) :
    ∃ v, coverage_record.get? ((annotate.get ⟨i, hi⟩).lineno - 1).toNat = some v
      ∧ (apply_coverage_map annotate cm).get? i = some (rawClassify v)
      ∧ rawClassify v ≠ 'X' := by
  have hmem : annotate.get ⟨i, hi⟩ ∈ annotate := List.get_mem annotate i hi
  have h1 : 1 ≤ (annotate.get ⟨i, hi⟩).lineno := hlin _ hmem
  have hlt : ((annotate.get ⟨i, hi⟩).lineno - 1).toNat < coverage_record.length := by
    omega
  refine ⟨coverage_record.get ⟨_, hlt⟩, List.get?_eq_get hlt, ?_, ?_⟩
  · have hcm' : cm = specBuildMap annotate coverage_record := by
      have h2 := build_foldlM_eq coverage_record annotate [] hlin
      unfold build_coverage_map at hcm
      rw [h2] at hcm
      exact (Option.some.inj hcm).symm
    have hget := specBuildMap_lookup coverage_record annotate []
      (annotate.get ⟨i, hi⟩) hmem hkeys _ (List.get?_eq_get hlt)
    rw [apply_eq_map, List.get?_map, List.get?_eq_get hi, Option.map_some']
    congr 1
    dsimp only [specClassify, rawClassify]
    rw [hcm']
    rw [show dictGet? (specBuildMap annotate coverage_record)
        ((annotate.get ⟨i, hi⟩).node, (annotate.get ⟨i, hi⟩).targetline)
        = some (coverage_record.get ⟨_, hlt⟩) from hget]
  · dsimp only [rawClassify]
    split_ifs <;> decide

/-- Witness for claim C3: the worked example's build provenance applied to
its own coverage map, at line index 0. -/
theorem claim3_witness :
    ∃ v, exRaw.get? ((exBuildAnn.get ⟨0, by decide⟩).lineno - 1).toNat = some v
      ∧ (apply_coverage_map exBuildAnn wCm3).get? 0 = some (rawClassify v)
      ∧ rawClassify v ≠ 'X' :=
  claim3_identity_mapping exBuildAnn exRaw wCm3 (by decide) (by decide) (by rfl)
    0 (by decide) (by decide)

/-- Claim C5: on the spec's worked example (build raw coverage
[-1, 1, 1, 0], target r1 inserting one line at visible line 3), generate
produces classification NCXCU with lines_added 1, lines_unknown 1,
lines_covered 0, and the added 0-based indices are exactly [2]. -/
theorem claim5_worked_example :
    generate exAnnotateOf ("r0") exReport [exChangeset]
        = .ok [("r1", ⟨42, [(("f.cpp").data, ⟨1, 1, 0, ['N', 'C', 'X', 'C', 'U']⟩)]⟩)]
      ∧ (exTargetAnn.filter (fun line => line.node = "r1")).map
          (fun line => line.lineno - 1) = [(2 : Int)] := by
  exact ⟨rfl, rfl⟩

/-- Claim C7: if some processed changeset has a parsable revision id and
some changed path for which the report yields a coverage record while the
build-revision annotate data is absent, generate fails as a whole: it
returns an error and no result mapping. -/
theorem claim7_missing_build_annotate_fatal
    (annotateOf : String → List Char → Option (List AnnotateRecord))
    (revision : String) (report : CovdirReport) (changesets : List Changeset)
    (c : Changeset) (p : List Char)
    (hc : c ∈ changesets) (hrid : parse_revision_id c.desc ≠ none)
    (hp : p ∈ c.files) (hcov : find_coverage report p ≠ none)
    (hann : annotateOf revision p = none) :
    ∃ e, generate annotateOf revision report changesets = .error e := by
  apply foldlM_error_of_mem _ changesets c hc _ []
  intro acc
  dsimp only [process_changeset]
  cases hr : parse_revision_id c.desc with
  | none => exact absurd hr hrid
  | some rid =>
    have hfiles : ∃ e,
        c.files.foldlM (process_path annotateOf revision report c.node) []
          = .error e := by
      apply foldlM_error_of_mem _ c.files p hp _ []
      intro acc2
      dsimp only [process_path]
      cases hcv : find_coverage report p with
      | none => exact absurd hcv hcov
      | some cr =>
        rw [hann]
        exact ⟨_, rfl⟩
    obtain ⟨e, he⟩ := hfiles
    rw [he]
    exact ⟨e, rfl⟩

/-- Witness for claim C7: a report with coverage for f, a changeset
touching f, and an annotate provider with no data for the build
revision. -/
theorem claim7_witness :
    ∃ e, generate wA7 ("rb") wRep7 [wCs7] = .error e :=
  claim7_missing_build_annotate_fatal wA7 ("rb") wRep7 [wCs7] wCs7 (("f").data)
    (by decide) (by decide) (by decide) (by decide) rfl

/-- Claim C8: each expected-absence condition silently skips exactly its
unit of work and processing continues: a changeset without a parsable
revision id is dropped whole; a path absent from the report is dropped
from its changeset's file list; a path whose target-revision annotate data
is absent (with build data present and the map built) is likewise dropped.
In each case generate returns the same value as on the input without that
unit, with every other revision and path still processed. -/
theorem claim8_expected_absence_skips
    (annotateOf : String → List Char → Option (List AnnotateRecord))
    (revision : String) (report : CovdirReport) :
    (∀ pre post (c : Changeset), parse_revision_id c.desc = none →
      generate annotateOf revision report (pre ++ c :: post)
        = generate annotateOf revision report (pre ++ post))
  ∧ (∀ pre post d n fpre (p : List Char) fpost, find_coverage report p = none →
      generate annotateOf revision report
          (pre ++ Changeset.mk d n (fpre ++ p :: fpost) :: post)
        = generate annotateOf revision report
          (pre ++ Changeset.mk d n (fpre ++ fpost) :: post))
  ∧ (∀ pre post d n fpre (p : List Char) fpost cr ba cmv,
      find_coverage report p = some cr →
      annotateOf revision p = some ba →
      build_coverage_map ba cr = some cmv →
      annotateOf n p = none →
      generate annotateOf revision report
          (pre ++ Changeset.mk d n (fpre ++ p :: fpost) :: post)
        = generate annotateOf revision report
          (pre ++ Changeset.mk d n (fpre ++ fpost) :: post)) := by
  refine ⟨?_, ?_, ?_⟩
  · intro pre post c hc
    apply foldlM_skip
    intro acc
    dsimp only [process_changeset]
    rw [hc]
  · intro pre post d n fpre p fpost hfc
    apply foldlM_congr_elem
    intro acc
    dsimp only [process_changeset]
    cases hr : parse_revision_id d with
    | none => rfl
    | some rid =>
      rw [foldlM_skip (process_path annotateOf revision report n) fpre fpost p
        (fun acc2 => by dsimp only [process_path]; rw [hfc]) []]
  · intro pre post d n fpre p fpost cr ba cmv hfc hba hbm hta
    apply foldlM_congr_elem
    intro acc
    dsimp only [process_changeset]
    cases hr : parse_revision_id d with
    | none => rfl
    | some rid =>
      rw [foldlM_skip (process_path annotateOf revision report n) fpre fpost p
        (fun acc2 => by dsimp only [process_path]; simp only [hfc, hba, hbm, hta]) []]

/-- Witness for claim C8: each skip equality on concrete data: a changeset
with no review URL, a path g absent from the report, and a path f whose
target annotate data is absent. -/
theorem claim8_witness :
    generate wA8 ("rb") wRep7 [wNoRev] = generate wA8 ("rb") wRep7 []
  ∧ generate wA8 ("rb") wRep7 [Changeset.mk wDesc8 ("t1") [("g").data]]
      = generate wA8 ("rb") wRep7 [Changeset.mk wDesc8 ("t1") []]
  ∧ generate wA8 ("rb") wRep7 [Changeset.mk wDesc8 ("t1") [("f").data]]
      = generate wA8 ("rb") wRep7 [Changeset.mk wDesc8 ("t1") []] :=
  ⟨(claim8_expected_absence_skips wA8 ("rb") wRep7).1 [] [] wNoRev rfl,
   (claim8_expected_absence_skips wA8 ("rb") wRep7).2.1 [] [] wDesc8 ("t1")
     [] (("g").data) [] rfl,
   (claim8_expected_absence_skips wA8 ("rb") wRep7).2.2 [] [] wDesc8 ("t1")
     [] (("f").data) [] [1] exBuildAnn [(("r0", 1), 1)] rfl rfl rfl rfl⟩

/-- Claim C9: find_coverage splits the path on slashes (splitSlash is a
genuine split: joining the segments with slashes restores the path and no
segment contains a slash), discards empty segments, and descends the tree
per the spec-side specFind, which returns not-found as soon as a segment
is absent and the coverage at the reached node otherwise. -/
theorem claim9_find_coverage (report : CovdirReport) (path : List Char) :
    joinSlash (splitSlash path) = path
      ∧ (∀ seg ∈ splitSlash path, ('/') ∉ seg)
      ∧ find_coverage report path
          = specFind report ((splitSlash path).filter (fun s => s ≠ [])) :=
  ⟨joinSlash_splitSlash path, splitSlash_no_slash path,
    find_go_eq_specFind ((splitSlash path).filter (fun s => s ≠ [])) report⟩

/-- Witness for claim C9: the two-level report and the path a/b. -/
theorem claim9_witness :
    joinSlash (splitSlash wPath9) = wPath9
      ∧ ('/') ∉ (("a").data)
      ∧ find_coverage wRep9 wPath9
          = specFind wRep9 ((splitSlash wPath9).filter (fun s => s ≠ [])) :=
  ⟨(claim9_find_coverage wRep9 wPath9).1,
   (claim9_find_coverage wRep9 wPath9).2.1 (("a").data) (by decide),
   (claim9_find_coverage wRep9 wPath9).2.2⟩

/-- Claim C10: when generate succeeds and changeset nodes are distinct,
every changeset whose commit message yields a review request id has an
entry in the result, keyed by its node and carrying that id, and if every
one of its changed paths is skipped (absent from the report, or
target-revision annotate data absent) the entry's paths mapping is
empty. -/
theorem claim10_entry_for_parsed
    (annotateOf : String → List Char → Option (List AnnotateRecord))
    (revision : String) (report : CovdirReport) (changesets : List Changeset)
    (res : List (String × RevisionResult)) (c : Changeset) (rid : Nat)
    (hok : generate annotateOf revision report changesets = .ok res)
    (hnodup : (changesets.map Changeset.node).Nodup)
    (hc : c ∈ changesets) (hrid : parse_revision_id c.desc = some rid) :
    ∃ entry, dictGet? res c.node = some entry ∧ entry.revision_id = rid
      ∧ ((∀ p ∈ c.files, find_coverage report p = none ∨ annotateOf c.node p = none) →
          entry.paths = []) :=
  gen_fold_entry annotateOf revision report changesets [] res c rid hok hnodup hc hrid

/-- Witness for claim C10: a changeset with review request 9 whose only
path is absent from the empty report; the result entry exists with an
empty paths mapping. -/
theorem claim10_witness :
    ∃ entry, dictGet? wRes10 ("t9") = some entry ∧ entry.revision_id = 9
      ∧ entry.paths = [] := by
  obtain ⟨entry, h1, h2, h3⟩ := claim10_entry_for_parsed wA7 ("rb") wRep10
    [wCs10] wRes10 wCs10 9 rfl (by decide) (by decide) rfl
  exact ⟨entry, h1, h2, h3 (by decide)⟩

end Phab
